import Mathlib

/-!
# Verification of the coral tree-rendering engine (`src/coral/__init__.py`)

Shallow embedding of the core of the repository:

* `Json` / `Value`   — values carried in node attribute maps (Python/JSON values).
* `Attrs`            — a Python dict as an insertion-ordered association list.
* `Node`             — `class Node`: attribute map plus ordered children.
* `getAttrChain`     — `Node.__getattr__` (lines 136-144): own-map lookup with
                       fallback to the parent chain, `AttributeError` at the root.
                       Parent pointers are represented by passing the list of
                       ancestor attribute maps (nearest first) explicitly.
* `JsonNodeBuilder.build` — lines 191-197 together with `Node.__init__`
                       (lines 129-134).
* `NodeAttributesRenderereVisitor` / `YamlAttributeVisitor` — lines 238-274.
* `renderStep`       — the per-node part of `NodeGenerator._render`
                       (lines 311-330), with file-system effects reified.
* a small Jinja-subset evaluator sufficient for the built-in `void` template
  registered in `NodeGenerator.__init__` (lines 301-305).

External collaborators (the Jinja engine, the file system, the YAML parser)
enter as function parameters, as the spec treats them as external capabilities.
-/

/-- JSON-ish Python values stored in attribute maps. -/
inductive Json where
  | null : Json
  | bool (b : Bool) : Json
  | num (n : Int) : Json
  | str (s : String) : Json
  | arr (elems : List Json) : Json
  | obj (fields : List (String × Json)) : Json

abbrev Value := Json

/-- A Python dict, as an insertion-ordered association list. -/
abbrev Attrs := List (String × Value)

/-- Python dict key lookup (`d[k]` / `k in d`): first binding of the key. -/
def dictLookup {α : Type} : List (String × α) → String → Option α
  | [], _ => none
  | (k', v) :: rest, k => if k' = k then some v else dictLookup rest k

/-- Python dict item assignment `d[k] = v`: replace the binding in place if the
key is present, otherwise append it (insertion-order semantics). -/
def dictSet {α : Type} : List (String × α) → String → α → List (String × α)
  | [], k, v => [(k, v)]
  | (k', v') :: rest, k, v =>
      if k' = k then (k, v) :: rest else (k', v') :: dictSet rest k v

/-- Python `d.update(m)`: set each binding of `m` in order. -/
def dictUpdate (d m : Attrs) : Attrs :=
  m.foldl (fun acc kv => dictSet acc kv.1 kv.2) d

/-- `optOr a b` is `a` unless `a` is `none` (Python-style `x or y` on options). -/
def optOr {α : Type} : Option α → Option α → Option α
  | some v, _ => some v
  | none, o => o

/-- Exceptions raised by the embedded code. -/
inductive PyError where
  | attributeError (className : String) (attr : String) : PyError
  | templateNotFound (name : String) : PyError
  | typeError (msg : String) : PyError
  | parseError (msg : String) : PyError
deriving DecidableEq

/-- `class Node` (line 128): attribute map plus ordered children; the parent
back-reference is represented externally as an explicit ancestor chain. -/
inductive Node where
  | mk (attributes : Attrs) (children : List Node) : Node

def Node.attributes : Node → Attrs
  | .mk a _ => a

def Node.children : Node → List Node
  | .mk _ c => c

/-- `Node.__getattr__` (lines 136-144) along the chain of attribute maps
`self.attributes :: parent.attributes :: ...` (nearest ancestor first):
return the first map's own value if the key is present, else delegate to the
rest of the chain (`getattr(self.parent, attr)`); a node with no parent left
raises `AttributeError` naming the missing key and the node's class (`Node`).
Keys shadowed by real Python instance attributes (`attributes`, `children`,
`parent`) never reach `__getattr__` and are outside this model. -/
def getAttrChain (k : String) : List Attrs → Except PyError Value
  | [] => .error (.attributeError "Node" k)
  | a :: rest =>
      match dictLookup a k with
      | some v => .ok v
      | none => getAttrChain k rest

theorem dictLookup_dictSet_self {α : Type} (d : List (String × α)) (k : String) (v : α) :
    dictLookup (dictSet d k v) k = some v := by
  induction d with
  | nil => simp [dictLookup, dictSet]
  | cons kv rest ih =>
      obtain ⟨k', v'⟩ := kv
      by_cases h : k' = k
      · simp [dictLookup, dictSet, h]
      · simp [dictLookup, dictSet, h, ih]

theorem dictLookup_dictSet_ne {α : Type} (d : List (String × α)) (k k' : String) (v : α)
    (h : k' ≠ k) : dictLookup (dictSet d k v) k' = dictLookup d k' := by
  induction d with
  | nil => simp [dictLookup, dictSet, Ne.symm h]
  | cons kv rest ih =>
      obtain ⟨k'', v''⟩ := kv
      by_cases h2 : k'' = k
      · subst h2
        simp [dictLookup, dictSet, Ne.symm h]
      · by_cases h3 : k'' = k'
        · simp [dictLookup, dictSet, h2, h3, h]
        · simp [dictLookup, dictSet, h2, h3, h, ih]

theorem getAttrChain_append_of_absent (k : String) (pre chain : List Attrs)
    (h : ∀ a ∈ pre, dictLookup a k = none) :
    getAttrChain k (pre ++ chain) = getAttrChain k chain := by
  induction pre with
  | nil => rfl
  | cons a rest ih =>
      have ha : dictLookup a k = none := h a (by simp)
      simp only [List.cons_append, getAttrChain, ha]
      exact ih (fun a' h' => h a' (by simp [h']))

/-- **C1.** Attribute lookup (`Node.__getattr__`, lines 136-144): a key present
in the node's own attribute map resolves to the node's own value; an absent key
resolves exactly as on the parent; consequently, when every map strictly between
a node and an ancestor `A` (the node's own included) lacks `k`, lookup on the
node agrees with lookup on `A` — the nearest ancestor defining `k` wins. -/
theorem attr_lookup_inherits_from_nearest_ancestor (k : String) (own : Attrs)
    (rest : List Attrs) :
    (∀ v, dictLookup own k = some v → getAttrChain k (own :: rest) = .ok v) ∧
    (dictLookup own k = none → getAttrChain k (own :: rest) = getAttrChain k rest) ∧
    (∀ pre chain : List Attrs, (∀ a ∈ pre, dictLookup a k = none) →
      getAttrChain k (pre ++ chain) = getAttrChain k chain) := by
  refine ⟨fun v hv => ?_, fun hn => ?_, getAttrChain_append_of_absent k⟩
  · simp [getAttrChain, hv]
  · simp [getAttrChain, hn]

/-- Witness for C1 at a concrete tree: grand-parent defines `color`, the parent
and the node itself do not; lookup on the node returns the grand-parent's value. -/
theorem attr_lookup_inherits_from_nearest_ancestor_witness :
    getAttrChain "color" [[("name", Json.str "leaf")], [], [("color", Json.str "red")]]
      = .ok (Json.str "red") := by
  have h := (attr_lookup_inherits_from_nearest_ancestor "color"
      [("name", Json.str "leaf")] [[], [("color", Json.str "red")]]).2.2
      [[("name", Json.str "leaf")], []] [[("color", Json.str "red")]]
      (by intro a ha; fin_cases ha <;> rfl)
  rw [show ([[("name", Json.str "leaf")], []] ++ [[("color", Json.str "red")]]
        : List Attrs)
      = [[("name", Json.str "leaf")], [], [("color", Json.str "red")]] from rfl] at h
  rw [h]
  rfl

/-- **C2.** When no map in the whole chain (the node's own and every
ancestor's) defines `k`, `Node.__getattr__` raises `AttributeError` carrying
the missing key and the node's class name (`Node`), lines 141-144. -/
theorem attr_lookup_error_when_unresolved (k : String) (chain : List Attrs)
    (h : ∀ a ∈ chain, dictLookup a k = none) :
    getAttrChain k chain = .error (.attributeError "Node" k) := by
  induction chain with
  | nil => rfl
  | cons a rest ih =>
      have ha : dictLookup a k = none := h a (by simp)
      simp only [getAttrChain, ha]
      exact ih (fun a' h' => h a' (by simp [h']))

/-- Witness for C2: a root with one attribute `name` and no parent, asked
for `age`. -/
theorem attr_lookup_error_when_unresolved_witness :
    getAttrChain "age" [[("name", Json.str "Mauro")]]
      = .error (.attributeError "Node" "age") :=
  attr_lookup_error_when_unresolved "age" [[("name", Json.str "Mauro")]]
    (by intro a ha; fin_cases ha; rfl)

/-! ## The per-node render step of `NodeGenerator._render` (lines 311-330) -/

mutual
/-- Python `repr()` on the embedded values (used by `str()` on containers). -/
def pyRepr : Json → String
  | .null => "None"
  | .bool b => if b then "True" else "False"
  | .num n => toString n
  | .str s => "\x27" ++ s ++ "\x27"
  | .arr elems => "[" ++ pyReprList elems ++ "]"
  | .obj fields => "\x7b" ++ pyReprFields fields ++ "\x7d"

def pyReprList : List Json → String
  | [] => ""
  | [j] => pyRepr j
  | j :: rest => pyRepr j ++ ", " ++ pyReprList rest

def pyReprFields : List (String × Json) → String
  | [] => ""
  | [(k, v)] => "\x27" ++ k ++ "\x27: " ++ pyRepr v
  | (k, v) :: rest => "\x27" ++ k ++ "\x27: " ++ pyRepr v ++ ", " ++ pyReprFields rest
end

/-- Python `str()` on attribute values, as used by the f-strings
`f"{node.tag}.j2"` / `f"{node.tag}.yaml"`. -/
def pyStr : Json → String
  | .str s => s
  | v => pyRepr v

/-- Split a character list on `/` (for `pathlib` parent computation). -/
def splitSlash : List Char → List (List Char)
  | [] => [[]]
  | c :: rest =>
      let r := splitSlash rest
      if c = '/' then [] :: r
      else
        match r with
        | [] => [[c]]
        | g :: gs => (c :: g) :: gs

def joinSlash : List (List Char) → List Char
  | [] => []
  | [g] => g
  | g :: gs => g ++ '/' :: joinSlash gs

/-- `pathlib.Path(p).parent` on the path strings this program produces. -/
def parentDir (p : String) : String :=
  match (splitSlash p.data).dropLast with
  | [] => "."
  | [[]] => "/"
  | ps => String.mk (joinSlash ps)

/-- Observable side effects of one `_render` invocation (lines 324-328):
`output_path.parent.mkdir(parents=True, exist_ok=True)`,
`output_path.write_text(ret)`, `print(f"Saved to {output_path}")`. -/
inductive Effect where
  | mkdirParents (path : String) : Effect
  | write (path : String) (text : String) : Effect
  | log (msg : String) : Effect
deriving DecidableEq

/-- Result of a `_render` invocation: the returned text plus this
invocation's own file-system effects. -/
structure RenderOutcome where
  result : String
  effects : List Effect
deriving DecidableEq

/-- Template resolution of `_render` (lines 313-321): the inline registry
`self.templates` is consulted first with the node's tag
(`self.templates.get(node.tag)`, a string-keyed dict); a miss falls back to the
file template `f"{node.tag}.j2"` loaded through the engine's search path
(`files`); a missing file raises Jinja's `TemplateNotFound` naming that file.
`renderString` abstracts the external Jinja engine applied to this call's
context `{"node": node, "render": self._render}`. -/
def resolveRenderedText (templates : List (String × String))
    (files : String → Option String) (renderString : String → String)
    (tagVal : Value) : Except PyError String :=
  let inline :=
    match tagVal with
    | .str tag => dictLookup templates tag
    | _ => none
  match inline with
  | some t => .ok (renderString t)
  | none =>
      match files (pyStr tagVal ++ ".j2") with
      | some t => .ok (renderString t)
      | none => .error (.templateNotFound (pyStr tagVal ++ ".j2"))

/-- The write-back step of `_render` (lines 323-328): triggered by
`"coral-to" in node.attributes` — the node's OWN attributes dict only, no
parent fallback. `Path()` of a non-string value raises `TypeError`. -/
def coralToEffects (attrs : Attrs) (ret : String) : Except PyError (List Effect) :=
  match dictLookup attrs "coral-to" with
  | some (.str p) =>
      .ok [.mkdirParents (parentDir p), .write p ret, .log ("Saved to " ++ p)]
  | some _ => .error (.typeError "argument should be a str or an os.PathLike object")
  | none => .ok []

/-- One invocation of `NodeGenerator._render` on a node (lines 311-330):
resolve `node.tag` through the inheritance chain, resolve and render the
template, then perform the `coral-to` write-back; the rendered text `ret`
is returned unchanged. -/
def renderStep (templates : List (String × String)) (files : String → Option String)
    (renderString : String → String) (attrs : Attrs) (ancestors : List Attrs) :
    Except PyError RenderOutcome :=
  match getAttrChain "tag" (attrs :: ancestors) with
  | .error e => .error e
  | .ok tagVal =>
      match resolveRenderedText templates files renderString tagVal with
      | .error e => .error e
      | .ok ret =>
          match coralToEffects attrs ret with
          | .error e => .error e
          | .ok effs => .ok ⟨ret, effs⟩

/-- **C3.** Render dispatch (`_render`, lines 313-321): an inline template
registered for the node's tag is rendered, taking precedence over any file
template (the `files` function is unconstrained in the first clause);
with no inline registration, the file template `{tag}.j2` from the search
path is rendered; with neither, rendering fails with `TemplateNotFound`
naming `{tag}.j2`. -/
theorem render_dispatch_inline_precedence_file_fallback
    (templates : List (String × String)) (files : String → Option String)
    (renderString : String → String) (attrs : Attrs) (ancestors : List Attrs)
    (tag : String)
    (htag : getAttrChain "tag" (attrs :: ancestors) = .ok (.str tag))
    (hnc : dictLookup attrs "coral-to" = none) :
    (∀ t, dictLookup templates tag = some t →
       renderStep templates files renderString attrs ancestors
         = .ok ⟨renderString t, []⟩) ∧
    (dictLookup templates tag = none → ∀ t, files (tag ++ ".j2") = some t →
       renderStep templates files renderString attrs ancestors
         = .ok ⟨renderString t, []⟩) ∧
    (dictLookup templates tag = none → files (tag ++ ".j2") = none →
       renderStep templates files renderString attrs ancestors
         = .error (.templateNotFound (tag ++ ".j2"))) := by
  refine ⟨fun t ht => ?_, fun hn t hf => ?_, fun hn hf => ?_⟩
  · simp [renderStep, htag, resolveRenderedText, coralToEffects, pyStr, ht, hnc]
  · simp [renderStep, htag, resolveRenderedText, coralToEffects, pyStr, hn, hf, hnc]
  · simp [renderStep, htag, resolveRenderedText, coralToEffects, pyStr, hn, hf, hnc]

/-- Witness for C3: tag `person` has both an inline template `T` and a file
template `person.j2`; the inline one is rendered. -/
theorem render_dispatch_inline_precedence_file_fallback_witness :
    renderStep [("person", "T")]
        (fun n => if n = "person.j2" then some "F" else none)
        (fun s => "R:" ++ s) [("tag", Json.str "person")] []
      = .ok ⟨"R:T", []⟩ :=
  (render_dispatch_inline_precedence_file_fallback [("person", "T")]
      (fun n => if n = "person.j2" then some "F" else none)
      (fun s => "R:" ++ s) [("tag", Json.str "person")] [] "person" rfl rfl).1 "T" rfl

/-- **C4.** The `coral-to` write-back (`_render`, lines 323-330): when the
node's own attributes carry `coral-to` with value `p`, a successful render
creates `p`'s parent directories, writes exactly the returned text to `p`, and
logs the write; the returned text is precisely the output of template
resolution and rendering — the write step does not alter it. -/
theorem coral_to_writes_rendered_text
    (templates : List (String × String)) (files : String → Option String)
    (renderString : String → String) (attrs : Attrs) (ancestors : List Attrs)
    (p : String) (o : RenderOutcome)
    (hc : dictLookup attrs "coral-to" = some (.str p))
    (ho : renderStep templates files renderString attrs ancestors = .ok o) :
    o.effects = [.mkdirParents (parentDir p), .write p o.result,
                 .log ("Saved to " ++ p)] ∧
    (∃ tagVal, getAttrChain "tag" (attrs :: ancestors) = .ok tagVal ∧
       resolveRenderedText templates files renderString tagVal = .ok o.result) := by
  unfold renderStep at ho
  cases htag : getAttrChain "tag" (attrs :: ancestors) with
  | error e => simp [htag] at ho
  | ok tagVal =>
      simp only [htag] at ho
      cases hres : resolveRenderedText templates files renderString tagVal with
      | error e => simp [hres] at ho
      | ok ret =>
          simp only [hres] at ho
          have hce : coralToEffects attrs ret
              = .ok [.mkdirParents (parentDir p), .write p ret,
                     .log ("Saved to " ++ p)] := by
            simp [coralToEffects, hc]
          simp only [hce] at ho
          have ho2 : (⟨ret, [.mkdirParents (parentDir p), .write p ret,
              .log ("Saved to " ++ p)]⟩ : RenderOutcome) = o := Except.ok.inj ho
          subst ho2
          exact ⟨rfl, tagVal, rfl, hres⟩

/-- Witness for C4: a node whose own `coral-to` is `out/x.txt`; rendering
returns `B` and the effects are exactly creating `out` and writing `B`
to `out/x.txt`. -/
theorem coral_to_writes_rendered_text_witness :
    ∃ o : RenderOutcome,
      renderStep [("t", "B")] (fun _ => none) (fun s => s)
          [("tag", Json.str "t"), ("coral-to", Json.str "out/x.txt")] [] = .ok o ∧
      o.result = "B" ∧
      o.effects = [.mkdirParents (parentDir "out/x.txt"),
                   .write "out/x.txt" o.result,
                   .log ("Saved to " ++ "out/x.txt")] ∧
      parentDir "out/x.txt" = "out" := by
  refine ⟨⟨"B", [.mkdirParents "out", .write "out/x.txt" "B",
               .log "Saved to out/x.txt"]⟩, rfl, rfl, ?_, by decide⟩
  exact (coral_to_writes_rendered_text [("t", "B")] (fun _ => none) (fun s => s)
      [("tag", Json.str "t"), ("coral-to", Json.str "out/x.txt")] [] "out/x.txt"
      ⟨"B", [.mkdirParents "out", .write "out/x.txt" "B", .log "Saved to out/x.txt"]⟩
      rfl rfl).1

/-- **C10.** The write-back check `"coral-to" in node.attributes` (line 324)
consults only the node's OWN attributes dict: when it is absent there, a
successful render performs no file-system effect at all, even though an
ancestor's `coral-to` is visible to the node through inherited lookup. -/
theorem coral_to_write_only_from_own_attributes
    (templates : List (String × String)) (files : String → Option String)
    (renderString : String → String) (attrs : Attrs) (ancestors : List Attrs)
    (o : RenderOutcome)
    (hc : dictLookup attrs "coral-to" = none)
    (ho : renderStep templates files renderString attrs ancestors = .ok o) :
    o.effects = [] := by
  unfold renderStep at ho
  cases htag : getAttrChain "tag" (attrs :: ancestors) with
  | error e => simp [htag] at ho
  | ok tagVal =>
      simp only [htag] at ho
      cases hres : resolveRenderedText templates files renderString tagVal with
      | error e => simp [hres] at ho
      | ok ret =>
          simp only [hres] at ho
          have hce : coralToEffects attrs ret = .ok [] := by
            simp [coralToEffects, hc]
          simp only [hce] at ho
          have ho2 : (⟨ret, []⟩ : RenderOutcome) = o := Except.ok.inj ho
          subst ho2
          rfl

/-- Witness for C10: the parent defines `coral-to` and the child sees it
through inherited lookup, yet rendering the child produces no effects. -/
theorem coral_to_write_only_from_own_attributes_witness :
    getAttrChain "coral-to"
        [[("tag", Json.str "t")], [("coral-to", Json.str "anc.txt")]]
      = .ok (Json.str "anc.txt") ∧
    ∃ o : RenderOutcome,
      renderStep [("t", "B")] (fun _ => none) (fun s => s)
          [("tag", Json.str "t")] [[("coral-to", Json.str "anc.txt")]] = .ok o ∧
      o.effects = [] := by
  refine ⟨rfl, ⟨"B", []⟩, rfl, ?_⟩
  exact coral_to_write_only_from_own_attributes [("t", "B")] (fun _ => none)
      (fun s => s) [("tag", Json.str "t")] [[("coral-to", Json.str "anc.txt")]]
      ⟨"B", []⟩ rfl rfl

/-! ## `YamlAttributeVisitor` (lines 251-274) -/

/-- Whether a path string ends in a separator. -/
def endsWithSlash (d : String) : Bool :=
  match d.data.getLast? with
  | some c => c == '\x2f'
  | none => false

/-- Whether a path string is absolute. -/
def startsWithSlash (name : String) : Bool :=
  match name.data with
  | c :: _ => c == '\x2f'
  | [] => false

/-- `os.path.join(directory, name)`. -/
def joinPath (d name : String) : String :=
  if startsWithSlash name then name
  else if d = "" then name
  else if endsWithSlash d then d ++ name
  else d ++ "/" ++ name

/-- Lines 271-273: `for attributes in yaml_data: node.attributes.update(attributes)`
(the `if yaml_data:` guard is a no-op for an empty list). -/
def mergeYaml (attrs : Attrs) (yamlData : List Attrs) : Attrs :=
  yamlData.foldl dictUpdate attrs

/-- The directory scan of `YamlAttributeVisitor.visit` (lines 258-274): walk
the configured directories in order; at the first one whose `{tag}.yaml`
exists (`fs` maps each existing path to its contents), read it, render it as a
template (`render`, the external engine under this node's context
`{"node": node}`), parse the rendered text (`parse`, the external YAML
parser, yielding a list of mappings — `[]` for a falsy load), merge the
mappings into the attributes and stop (`break`); directories after the first
match are never consulted. -/
def visitYamlScan (fs : String → Option String) (render : String → String)
    (parse : String → Except PyError (List Attrs)) (tag : String)
    (attrs : Attrs) : List String → Except PyError Attrs
  | [] => .ok attrs
  | d :: rest =>
      match fs (joinPath d (tag ++ ".yaml")) with
      | some raw =>
          match parse (render raw) with
          | .error e => .error e
          | .ok yamlData => .ok (mergeYaml attrs yamlData)
      | none => visitYamlScan fs render parse tag attrs rest

/-- `YamlAttributeVisitor.visit` on one node, the `f"{node.tag}.yaml"`
inherited tag lookup included. -/
def yamlVisit (fs : String → Option String) (render : String → String)
    (parse : String → Except PyError (List Attrs)) (dirs : List String)
    (attrs : Attrs) (ancestors : List Attrs) : Except PyError Attrs :=
  match getAttrChain "tag" (attrs :: ancestors) with
  | .error e => .error e
  | .ok tagVal => visitYamlScan fs render parse (pyStr tagVal) attrs dirs

theorem visitYamlScan_append_of_absent (fs : String → Option String)
    (render : String → String) (parse : String → Except PyError (List Attrs))
    (tag : String) (attrs : Attrs) (pre rest : List String)
    (h : ∀ d ∈ pre, fs (joinPath d (tag ++ ".yaml")) = none) :
    visitYamlScan fs render parse tag attrs (pre ++ rest)
      = visitYamlScan fs render parse tag attrs rest := by
  induction pre with
  | nil => rfl
  | cons d pre ih =>
      have hd := h d (by simp)
      simp only [List.cons_append, visitYamlScan, hd]
      exact ih (fun d' h' => h d' (by simp [h']))

/-- **C5.** `YamlAttributeVisitor.visit` (lines 257-274): the directories are
scanned in order and the first one containing `{tag}.yaml` decides the result
— the directories after it are never consulted (the result is unchanged under
arbitrary replacement of the tail), and the file's rendered and parsed
mappings are merged; if no directory contains the file, the attributes are
returned unchanged and no error is raised. -/
theorem yaml_visitor_first_directory_wins (fs : String → Option String)
    (render : String → String) (parse : String → Except PyError (List Attrs))
    (tag : String) (attrs : Attrs) (ancestors : List Attrs)
    (htag : getAttrChain "tag" (attrs :: ancestors) = .ok (.str tag)) :
    (∀ pre d rest rest' c,
       (∀ d' ∈ pre, fs (joinPath d' (tag ++ ".yaml")) = none) →
       fs (joinPath d (tag ++ ".yaml")) = some c →
       yamlVisit fs render parse (pre ++ d :: rest) attrs ancestors
           = (parse (render c)).map (mergeYaml attrs) ∧
       yamlVisit fs render parse (pre ++ d :: rest) attrs ancestors
           = yamlVisit fs render parse (pre ++ d :: rest') attrs ancestors) ∧
    (∀ dirs, (∀ d ∈ dirs, fs (joinPath d (tag ++ ".yaml")) = none) →
       yamlVisit fs render parse dirs attrs ancestors = .ok attrs) := by
  constructor
  · intro pre d rest rest' c hpre hd
    have key : ∀ tail, yamlVisit fs render parse (pre ++ d :: tail) attrs ancestors
        = (parse (render c)).map (mergeYaml attrs) := by
      intro tail
      unfold yamlVisit
      simp only [htag]
      rw [show pyStr (Json.str tag) = tag from rfl]
      rw [visitYamlScan_append_of_absent fs render parse tag attrs pre _ hpre]
      simp only [visitYamlScan, hd]
      cases parse (render c) <;> rfl
    exact ⟨key rest, (key rest).trans (key rest').symm⟩
  · intro dirs hall
    unfold yamlVisit
    simp only [htag]
    rw [show pyStr (Json.str tag) = tag from rfl]
    rw [show dirs = dirs ++ [] by simp,
        visitYamlScan_append_of_absent fs render parse tag attrs dirs [] hall]
    rfl

/-- Witness for C5: two directories both containing `person.yaml`; the first
one wins and the second is ignored; with no matching file anywhere the
attributes come back unchanged. -/
theorem yaml_visitor_first_directory_wins_witness :
    yamlVisit
        (fun p => if p = "a/person.yaml" then some "RAW1"
                  else if p = "b/person.yaml" then some "RAW2" else none)
        (fun s => s) (fun s => .ok [[("src", Json.str s)]]) ["a", "b"]
        [("tag", Json.str "person")] []
      = .ok [("tag", Json.str "person"), ("src", Json.str "RAW1")] ∧
    yamlVisit (fun _ => none) (fun s => s) (fun s => .ok [[("src", Json.str s)]])
        ["a", "b"] [("tag", Json.str "person")] []
      = .ok [("tag", Json.str "person")] := by
  constructor
  · have h := ((yaml_visitor_first_directory_wins
        (fun p => if p = "a/person.yaml" then some "RAW1"
                  else if p = "b/person.yaml" then some "RAW2" else none)
        (fun s => s) (fun s => .ok [[("src", Json.str s)]]) "person"
        [("tag", Json.str "person")] [] rfl).1 [] "a" ["b"] ["b"] "RAW1"
        (by intro d' h'; simp at h') rfl).1
    exact h.trans rfl
  · exact (yaml_visitor_first_directory_wins (fun _ => none) (fun s => s)
        (fun s => .ok [[("src", Json.str s)]]) "person"
        [("tag", Json.str "person")] [] rfl).2 ["a", "b"]
        (fun d _ => rfl)

/-- The last binding of `k` in an association list (specification-side notion
for "the latest write wins"). -/
def lastAssoc (l : Attrs) (k : String) : Option Value :=
  dictLookup l.reverse k

theorem dictLookup_append {α : Type} (a b : List (String × α)) (k : String) :
    dictLookup (a ++ b) k = optOr (dictLookup a k) (dictLookup b k) := by
  induction a with
  | nil => simp [dictLookup, optOr]
  | cons kv rest ih =>
      obtain ⟨k', v'⟩ := kv
      by_cases h : k' = k
      · simp [dictLookup, h, optOr]
      · simp [dictLookup, h, ih]

theorem lastAssoc_cons (k' : String) (v : Value) (m : Attrs) (k : String) :
    lastAssoc ((k', v) :: m) k
      = optOr (lastAssoc m k) (if k' = k then some v else none) := by
  simp only [lastAssoc, List.reverse_cons, dictLookup_append]
  rfl

theorem optOr_assoc {α : Type} (a b c : Option α) :
    optOr (optOr a b) c = optOr a (optOr b c) := by
  cases a <;> cases b <;> rfl

theorem dictLookup_dictUpdate (a m : Attrs) (k : String) :
    dictLookup (dictUpdate a m) k = optOr (lastAssoc m k) (dictLookup a k) := by
  induction m generalizing a with
  | nil => cases h : dictLookup a k <;> simp [dictUpdate, lastAssoc, dictLookup, optOr, h]
  | cons kv m ih =>
      obtain ⟨k', v⟩ := kv
      have step : dictUpdate a ((k', v) :: m) = dictUpdate (dictSet a k' v) m := rfl
      rw [step, ih, lastAssoc_cons]
      by_cases h : k' = k
      · rw [if_pos h, h, dictLookup_dictSet_self]
        cases lastAssoc m k <;> simp [optOr]
      · rw [if_neg h, dictLookup_dictSet_ne a k' k v (Ne.symm h)]
        cases lastAssoc m k <;> simp [optOr]

/-- **C6.** The merge loop of `YamlAttributeVisitor.visit` (lines 271-273):
after merging the parsed list of mappings into the attribute dict, each key
resolves to the last binding of that key across the concatenated mappings —
so the latest mapping in the list wins, a value from the file overrides a
pre-existing attribute of the same name, and a key not mentioned in any
mapping keeps its previous value. -/
theorem yaml_merge_latest_mapping_wins (attrs : Attrs) (ms : List Attrs)
    (k : String) :
    dictLookup (mergeYaml attrs ms) k
      = optOr (lastAssoc ms.flatten k) (dictLookup attrs k) := by
  induction ms generalizing attrs with
  | nil => cases h : dictLookup attrs k <;> simp [mergeYaml, lastAssoc, dictLookup, optOr, h]
  | cons m ms ih =>
      have step : mergeYaml attrs (m :: ms) = mergeYaml (dictUpdate attrs m) ms := rfl
      rw [step, ih, dictLookup_dictUpdate]
      rw [show (m :: ms).flatten = m ++ ms.flatten from rfl]
      rw [show lastAssoc (m ++ ms.flatten) k
            = optOr (lastAssoc ms.flatten k) (lastAssoc m k) by
          simp only [lastAssoc, List.reverse_append, dictLookup_append]]
      rw [optOr_assoc]

/-- Witness for C6 on concrete data: `a` is overridden by the second mapping,
`b` by the file over the pre-existing value, `c` keeps its old value. -/
theorem yaml_merge_latest_mapping_wins_witness :
    dictLookup (mergeYaml [("b", Json.num 0), ("c", Json.num 9)]
        [[("a", Json.num 1), ("b", Json.num 2)], [("a", Json.num 3)]]) "a"
      = some (Json.num 3) ∧
    dictLookup (mergeYaml [("b", Json.num 0), ("c", Json.num 9)]
        [[("a", Json.num 1), ("b", Json.num 2)], [("a", Json.num 3)]]) "b"
      = some (Json.num 2) ∧
    dictLookup (mergeYaml [("b", Json.num 0), ("c", Json.num 9)]
        [[("a", Json.num 1), ("b", Json.num 2)], [("a", Json.num 3)]]) "c"
      = some (Json.num 9) := by
  refine ⟨?_, ?_, ?_⟩
  · rw [yaml_merge_latest_mapping_wins]; rfl
  · rw [yaml_merge_latest_mapping_wins]; rfl
  · rw [yaml_merge_latest_mapping_wins]; rfl

/-! ## `NodeAttributesRenderereVisitor` (lines 238-248) -/

/-- The loop of `NodeAttributesRenderereVisitor.visit` (lines 243-248) over
the (insertion-ordered) key sequence of the dict: a key whose current value is
a string is overwritten in place with the render of that string against the
context `{"node": node}` — the node's state at that moment of the loop,
represented here by its current attribute dict; any other value is skipped. -/
def renderAttrsGo (render : String → Attrs → String) :
    Attrs → List String → Attrs
  | attrs, [] => attrs
  | attrs, k :: ks =>
      match dictLookup attrs k with
      | some (.str s) =>
          renderAttrsGo render (dictSet attrs k (.str (render s attrs))) ks
      | _ => renderAttrsGo render attrs ks

/-- `NodeAttributesRenderereVisitor.visit` on one node:
`for attr, value in node.attributes.items(): ...`. -/
def renderereVisit (render : String → Attrs → String) (attrs : Attrs) : Attrs :=
  renderAttrsGo render attrs (attrs.map Prod.fst)

theorem dictSet_keys_of_mem {α : Type} (d : List (String × α)) (k : String)
    (v v' : α) (h : dictLookup d k = some v') :
    (dictSet d k v).map Prod.fst = d.map Prod.fst := by
  induction d with
  | nil => simp [dictLookup] at h
  | cons kv rest ih =>
      obtain ⟨k', v''⟩ := kv
      by_cases hk : k' = k
      · subst hk
        simp [dictSet]
      · simp only [dictLookup, hk, if_false] at h
        simp [dictSet, hk, ih h]

theorem dictLookup_mem_keys {α : Type} (d : List (String × α)) (k : String)
    (v : α) (h : dictLookup d k = some v) : k ∈ d.map Prod.fst := by
  induction d with
  | nil => simp [dictLookup] at h
  | cons kv rest ih =>
      obtain ⟨k', v'⟩ := kv
      by_cases hk : k' = k
      · simp [hk]
      · simp only [dictLookup, hk, if_false] at h
        simp [ih h]

theorem renderAttrsGo_keys (render : String → Attrs → String) (ks : List String)
    (attrs : Attrs) :
    (renderAttrsGo render attrs ks).map Prod.fst = attrs.map Prod.fst := by
  induction ks generalizing attrs with
  | nil => rfl
  | cons k ks ih =>
      cases h : dictLookup attrs k with
      | none => simp only [renderAttrsGo, h]; exact ih attrs
      | some v =>
          cases v with
          | str s =>
              simp only [renderAttrsGo, h]
              rw [ih, dictSet_keys_of_mem attrs k _ _ h]
          | null => simp only [renderAttrsGo, h]; exact ih attrs
          | bool b => simp only [renderAttrsGo, h]; exact ih attrs
          | num n => simp only [renderAttrsGo, h]; exact ih attrs
          | arr es => simp only [renderAttrsGo, h]; exact ih attrs
          | obj fs => simp only [renderAttrsGo, h]; exact ih attrs

theorem renderAttrsGo_not_mem (render : String → Attrs → String) (ks : List String)
    (attrs : Attrs) (k : String) (hk : k ∉ ks) :
    dictLookup (renderAttrsGo render attrs ks) k = dictLookup attrs k := by
  induction ks generalizing attrs with
  | nil => rfl
  | cons k' ks ih =>
      have hne : k ≠ k' := fun h => hk (by simp [h])
      have hks : k ∉ ks := fun h => hk (by simp [h])
      cases h : dictLookup attrs k' with
      | none => simp only [renderAttrsGo, h]; exact ih attrs hks
      | some v =>
          cases v with
          | str s =>
              simp only [renderAttrsGo, h]
              rw [ih _ hks, dictLookup_dictSet_ne _ _ _ _ hne]
          | null => simp only [renderAttrsGo, h]; exact ih attrs hks
          | bool b => simp only [renderAttrsGo, h]; exact ih attrs hks
          | num n => simp only [renderAttrsGo, h]; exact ih attrs hks
          | arr es => simp only [renderAttrsGo, h]; exact ih attrs hks
          | obj fs => simp only [renderAttrsGo, h]; exact ih attrs hks

theorem renderAttrsGo_nonstring (render : String → Attrs → String)
    (ks : List String) (attrs : Attrs) (k : String) (v : Value)
    (hnd : ks.Nodup) (hv : dictLookup attrs k = some v) (hns : ∀ s, v ≠ .str s) :
    dictLookup (renderAttrsGo render attrs ks) k = some v := by
  induction ks generalizing attrs with
  | nil => exact hv
  | cons k' ks ih =>
      have hnd' : ks.Nodup := (List.nodup_cons.mp hnd).2
      by_cases hk : k' = k
      · subst hk
        have hnm : k' ∉ ks := (List.nodup_cons.mp hnd).1
        cases v with
        | str s => exact absurd rfl (hns s)
        | null =>
            simp only [renderAttrsGo, hv]
            rw [renderAttrsGo_not_mem render ks attrs k' hnm, hv]
        | bool b =>
            simp only [renderAttrsGo, hv]
            rw [renderAttrsGo_not_mem render ks attrs k' hnm, hv]
        | num n =>
            simp only [renderAttrsGo, hv]
            rw [renderAttrsGo_not_mem render ks attrs k' hnm, hv]
        | arr es =>
            simp only [renderAttrsGo, hv]
            rw [renderAttrsGo_not_mem render ks attrs k' hnm, hv]
        | obj fs =>
            simp only [renderAttrsGo, hv]
            rw [renderAttrsGo_not_mem render ks attrs k' hnm, hv]
      · cases h : dictLookup attrs k' with
        | none => simp only [renderAttrsGo, h]; exact ih attrs hnd' hv
        | some w =>
            cases w with
            | str s =>
                simp only [renderAttrsGo, h]
                refine ih _ hnd' ?_
                rw [dictLookup_dictSet_ne _ _ _ _ (fun hh => hk hh.symm)]
                exact hv
            | null => simp only [renderAttrsGo, h]; exact ih attrs hnd' hv
            | bool b => simp only [renderAttrsGo, h]; exact ih attrs hnd' hv
            | num n => simp only [renderAttrsGo, h]; exact ih attrs hnd' hv
            | arr es => simp only [renderAttrsGo, h]; exact ih attrs hnd' hv
            | obj fs => simp only [renderAttrsGo, h]; exact ih attrs hnd' hv

theorem renderAttrsGo_string (render : String → Attrs → String)
    (ks : List String) (attrs : Attrs) (k : String) (s : String)
    (hnd : ks.Nodup) (hmem : k ∈ ks) (hv : dictLookup attrs k = some (.str s)) :
    ∃ ctx, dictLookup (renderAttrsGo render attrs ks) k
      = some (.str (render s ctx)) := by
  induction ks generalizing attrs with
  | nil => simp at hmem
  | cons k' ks ih =>
      have hnd' : ks.Nodup := (List.nodup_cons.mp hnd).2
      by_cases hk : k' = k
      · subst hk
        have hnm : k' ∉ ks := (List.nodup_cons.mp hnd).1
        refine ⟨attrs, ?_⟩
        simp only [renderAttrsGo, hv]
        rw [renderAttrsGo_not_mem render ks _ k' hnm, dictLookup_dictSet_self]
      · have hmem' : k ∈ ks := by
          rcases List.mem_cons.mp hmem with h | h
          · exact absurd h.symm hk
          · exact h
        cases h : dictLookup attrs k' with
        | none => simp only [renderAttrsGo, h]; exact ih attrs hnd' hmem' hv
        | some w =>
            cases w with
            | str s' =>
                simp only [renderAttrsGo, h]
                refine ih _ hnd' hmem' ?_
                rw [dictLookup_dictSet_ne _ _ _ _ (fun hh => hk hh.symm)]
                exact hv
            | null => simp only [renderAttrsGo, h]; exact ih attrs hnd' hmem' hv
            | bool b => simp only [renderAttrsGo, h]; exact ih attrs hnd' hmem' hv
            | num n => simp only [renderAttrsGo, h]; exact ih attrs hnd' hmem' hv
            | arr es => simp only [renderAttrsGo, h]; exact ih attrs hnd' hmem' hv
            | obj fs => simp only [renderAttrsGo, h]; exact ih attrs hnd' hmem' hv

/-- **C7.** `NodeAttributesRenderereVisitor.visit` (lines 242-248) on a node
whose attribute dict has (as every Python dict) pairwise distinct keys: the
key sequence is unchanged (nothing added, removed or reordered); every
attribute with a non-string value keeps exactly that value; and every
attribute whose value is the string `s` ends up holding the result of a
single render of `s` against a context exposing the node (its attribute
state at the moment that key was visited) — rendered once, never
re-rendered. -/
theorem attrs_renderer_renders_each_string_once
    (render : String → Attrs → String) (attrs : Attrs)
    (hnd : (attrs.map Prod.fst).Nodup) :
    ((renderereVisit render attrs).map Prod.fst = attrs.map Prod.fst) ∧
    (∀ k v, dictLookup attrs k = some v → (∀ s, v ≠ .str s) →
       dictLookup (renderereVisit render attrs) k = some v) ∧
    (∀ k s, dictLookup attrs k = some (.str s) →
       ∃ ctx, dictLookup (renderereVisit render attrs) k
         = some (.str (render s ctx))) := by
  refine ⟨renderAttrsGo_keys render _ attrs, ?_, ?_⟩
  · intro k v hv hns
    exact renderAttrsGo_nonstring render _ attrs k v hnd hv hns
  · intro k s hv
    exact renderAttrsGo_string render _ attrs k s hnd
      (dictLookup_mem_keys attrs k _ hv) hv

/-- Witness for C7: a dict with one string attribute and one number attribute;
the string is rendered once (here: suffixed), the number is untouched, and the
key sequence is preserved. -/
theorem attrs_renderer_renders_each_string_once_witness :
    ((([("a", Json.str "x"), ("b", Json.num 3)] : Attrs).map Prod.fst).Nodup) ∧
    (renderereVisit (fun s _ => s ++ "!") [("a", Json.str "x"), ("b", Json.num 3)]).map
        Prod.fst = ["a", "b"] ∧
    dictLookup (renderereVisit (fun s _ => s ++ "!")
        [("a", Json.str "x"), ("b", Json.num 3)]) "b" = some (Json.num 3) :=
  have h := attrs_renderer_renders_each_string_once (fun s _ => s ++ "!")
      [("a", Json.str "x"), ("b", Json.num 3)] (by decide)
  ⟨by decide, h.1.trans rfl,
   h.2.1 "b" (Json.num 3) rfl (fun s hs => Json.noConfusion hs)⟩

/-! ## `JsonNodeBuilder` (lines 191-202) with `Node.__init__` (lines 129-134) -/

/-- The adoption loop of `Node.__init__` (lines 132-133):
`for child in self.children: child.parent = self`. A `None` entry (produced by
the builder for a non-dict child) has no `parent` slot, so the loop raises
`AttributeError: 'NoneType' object has no attribute 'parent'` at the first
`None`. -/
def adoptChildren : List (Option Node) → Except PyError (List Node)
  | [] => .ok []
  | none :: _ => .error (.attributeError "NoneType" "parent")
  | some c :: rest =>
      match adoptChildren rest with
      | .error e => .error e
      | .ok cs => .ok (c :: cs)

/-- `Node(**attributes, children=children)` (lines 129-134): the `children`
keyword is popped off the attribute dict (the builder already filtered it from
`attributes`), then the children are adopted. -/
def mkNode (attributes : Attrs) (children : List (Option Node)) :
    Except PyError Node :=
  match adoptChildren children with
  | .error e => .error e
  | .ok cs => .ok (.mk attributes cs)

mutual
/-- `JsonNodeBuilder.build` (lines 192-197): a dict becomes a Node whose
attributes are its non-`children` keys and whose children are built
recursively from the entries of its `children` value (default `[]`);
any non-dict input builds to `None`. -/
def JsonNodeBuilder.build : Json → Except PyError (Option Node)
  | .obj fields =>
      match JsonNodeBuilder.childrenOf fields with
      | .error e => .error e
      | .ok built => mkNode (fields.filter (fun kv => kv.1 != "children")) built
          |>.map some
  | _ => .ok none

/-- `data.get("children", [])` followed by
`[self.build(child) for child in ...]`: the first `children` binding of the
dict is iterated; a missing key contributes no children. Iterating a string
yields its characters (each a string, hence a `None` build) and iterating a
dict yields its keys (strings, hence `None` builds); `None`, numbers and
booleans are not iterable (`TypeError`). -/
def JsonNodeBuilder.childrenOf :
    List (String × Json) → Except PyError (List (Option Node))
  | [] => .ok []
  | (k, v) :: rest =>
      if k = "children" then
        match v with
        | .arr elems => JsonNodeBuilder.buildList elems
        | .str s => .ok (s.data.map (fun _ => none))
        | .obj fs => .ok (fs.map (fun _ => none))
        | _ => .error (.typeError "children value is not iterable")
      else JsonNodeBuilder.childrenOf rest

def JsonNodeBuilder.buildList : List Json → Except PyError (List (Option Node))
  | [] => .ok []
  | j :: js =>
      match JsonNodeBuilder.build j with
      | .error e => .error e
      | .ok n =>
          match JsonNodeBuilder.buildList js with
          | .error e => .error e
          | .ok ns => .ok (n :: ns)
end

theorem build_obj_eq (fields : List (String × Json)) :
    JsonNodeBuilder.build (.obj fields)
      = match JsonNodeBuilder.childrenOf fields with
        | .error e => .error e
        | .ok built =>
            (mkNode (fields.filter (fun kv => kv.1 != "children")) built).map some :=
  rfl

/-- `childrenOf` is the dict lookup of the first `children` binding followed by
iteration of its value. -/
theorem childrenOf_eq (fields : List (String × Json)) :
    JsonNodeBuilder.childrenOf fields
      = match dictLookup fields "children" with
        | none => .ok []
        | some (.arr elems) => JsonNodeBuilder.buildList elems
        | some (.str s) => .ok (s.data.map (fun _ => none))
        | some (.obj fs) => .ok (fs.map (fun _ => none))
        | some _ => .error (.typeError "children value is not iterable") := by
  induction fields with
  | nil => rfl
  | cons kv rest ih =>
      obtain ⟨k, v⟩ := kv
      by_cases hk : k = "children"
      · subst hk
        cases v <;> rfl
      · rw [show dictLookup ((k, v) :: rest) "children"
              = if k = "children" then some v else dictLookup rest "children" from rfl,
            if_neg hk, ← ih]
        cases v with
        | arr elems => rw [JsonNodeBuilder.childrenOf.eq_2, if_neg hk]
        | str s => rw [JsonNodeBuilder.childrenOf.eq_3, if_neg hk]
        | obj fs => rw [JsonNodeBuilder.childrenOf.eq_4, if_neg hk]
        | null =>
            rw [JsonNodeBuilder.childrenOf.eq_5 k _ rest
              (fun _ h => Json.noConfusion h) (fun _ h => Json.noConfusion h)
              (fun _ h => Json.noConfusion h), if_neg hk]
        | bool b =>
            rw [JsonNodeBuilder.childrenOf.eq_5 k _ rest
              (fun _ h => Json.noConfusion h) (fun _ h => Json.noConfusion h)
              (fun _ h => Json.noConfusion h), if_neg hk]
        | num n =>
            rw [JsonNodeBuilder.childrenOf.eq_5 k _ rest
              (fun _ h => Json.noConfusion h) (fun _ h => Json.noConfusion h)
              (fun _ h => Json.noConfusion h), if_neg hk]

theorem adoptChildren_ok (built : List (Option Node)) (cs : List Node)
    (h : adoptChildren built = .ok cs) : built = cs.map some := by
  induction built generalizing cs with
  | nil =>
      have : ([] : List Node) = cs := Except.ok.inj h
      subst this
      rfl
  | cons o rest ih =>
      cases o with
      | none => simp [adoptChildren] at h
      | some c =>
          simp only [adoptChildren] at h
          cases hr : adoptChildren rest with
          | error e => simp [hr] at h
          | ok cs' =>
              simp only [hr] at h
              cases Except.ok.inj h
              simp [ih cs' hr]

theorem adoptChildren_none_mem (built : List (Option Node))
    (h : none ∈ built) :
    adoptChildren built = .error (.attributeError "NoneType" "parent") := by
  induction built with
  | nil => simp at h
  | cons o rest ih =>
      cases o with
      | none => rfl
      | some c =>
          have hr : none ∈ rest := by
            rcases List.mem_cons.mp h with h1 | h1
            · exact absurd h1 (by simp)
            · exact h1
          simp [adoptChildren, ih hr]

/-- Counterexample to C9 as stated: building the object
`{"children": [1]}` — whose `children` array contains the non-object entry
`1` — does NOT succeed: the recursive build of `1` yields `None`, and
`Node.__init__` (line 133, `child.parent = self`) raises
`AttributeError: 'NoneType' object has no attribute 'parent'`. -/
theorem json_builder_nonobject_child_crashes :
    JsonNodeBuilder.build (.obj [("children", .arr [.num 1])])
      = .error (.attributeError "NoneType" "parent") := rfl

/-- **C9 (amended).** `JsonNodeBuilder.build` (lines 191-197): an object
builds to a node whose attributes are exactly its non-`children` keys and
whose children are built recursively, in order, from its `children` array
(empty when the key is absent); a non-object input yields no node
(`.ok none`), the recursion base case. However, an object whose `children`
array contains a non-object entry does not succeed: the builder hands the
`None` to `Node.__init__`, which raises `AttributeError` while adopting it. -/
theorem json_builder_build_characterization (fields : List (String × Json)) :
    (∀ j : Json, (∀ fs, j ≠ .obj fs) → JsonNodeBuilder.build j = .ok none) ∧
    (∀ n, JsonNodeBuilder.build (.obj fields) = .ok (some n) →
       n.attributes = fields.filter (fun kv => kv.1 != "children")) ∧
    (∀ elems n, dictLookup fields "children" = some (.arr elems) →
       JsonNodeBuilder.build (.obj fields) = .ok (some n) →
       JsonNodeBuilder.buildList elems = .ok (n.children.map some)) ∧
    (dictLookup fields "children" = none →
       ∀ n, JsonNodeBuilder.build (.obj fields) = .ok (some n) →
       n.children = []) ∧
    (∀ elems built, dictLookup fields "children" = some (.arr elems) →
       JsonNodeBuilder.buildList elems = .ok built → none ∈ built →
       JsonNodeBuilder.build (.obj fields)
         = .error (.attributeError "NoneType" "parent")) := by
  refine ⟨?_, ?_, ?_, ?_, ?_⟩
  · intro j hj
    cases j with
    | obj fs => exact absurd rfl (hj fs)
    | null => rfl
    | bool b => rfl
    | num n => rfl
    | str s => rfl
    | arr es => rfl
  · intro n hb
    rw [build_obj_eq] at hb
    cases hco : JsonNodeBuilder.childrenOf fields with
    | error e => simp [hco] at hb
    | ok built =>
        simp only [hco] at hb
        cases hmk : mkNode (fields.filter (fun kv => kv.1 != "children")) built with
        | error e => simp [hmk, Except.map] at hb
        | ok n' =>
            simp only [hmk, Except.map, Except.ok.injEq, Option.some.injEq] at hb
            subst hb
            unfold mkNode at hmk
            cases had : adoptChildren built with
            | error e => simp [had] at hmk
            | ok cs =>
                simp only [had] at hmk
                cases Except.ok.inj hmk
                rfl
  · intro elems n hch hb
    rw [build_obj_eq] at hb
    have hco : JsonNodeBuilder.childrenOf fields = JsonNodeBuilder.buildList elems := by
      rw [childrenOf_eq, hch]
    rw [hco] at hb
    cases hbl : JsonNodeBuilder.buildList elems with
    | error e => simp [hbl] at hb
    | ok built =>
        simp only [hbl] at hb
        cases hmk : mkNode (fields.filter (fun kv => kv.1 != "children")) built with
        | error e => simp [hmk, Except.map] at hb
        | ok n' =>
            simp only [hmk, Except.map, Except.ok.injEq, Option.some.injEq] at hb
            subst hb
            unfold mkNode at hmk
            cases had : adoptChildren built with
            | error e => simp [had] at hmk
            | ok cs =>
                simp only [had] at hmk
                cases Except.ok.inj hmk
                rw [show (Node.mk (fields.filter (fun kv => kv.1 != "children")) cs).children
                      = cs from rfl]
                rw [← adoptChildren_ok built cs had]
  · intro hch n hb
    rw [build_obj_eq] at hb
    have hco : JsonNodeBuilder.childrenOf fields = .ok [] := by
      rw [childrenOf_eq, hch]
    rw [hco] at hb
    have hb2 : Except.ok (ε := PyError)
        (some (Node.mk (fields.filter (fun kv => kv.1 != "children")) []))
        = .ok (some n) := hb
    cases Option.some.inj (Except.ok.inj hb2)
    rfl
  · intro elems built hch hbl hmem
    rw [build_obj_eq]
    have hco : JsonNodeBuilder.childrenOf fields = .ok built := by
      rw [childrenOf_eq, hch]
      exact hbl
    rw [hco]
    simp [mkNode, adoptChildren_none_mem built hmem, Except.map]

/-- Witness for the amended C9: `7` builds to no node; the object
`{"name": "root", "children": [{"name": "c"}]}` builds to a node with
attribute `name` and one recursively built child. -/
theorem json_builder_build_characterization_witness :
    JsonNodeBuilder.build (.num 7) = .ok none ∧
    (∃ n, JsonNodeBuilder.build (.obj [("name", Json.str "root"),
          ("children", Json.arr [Json.obj [("name", Json.str "c")]])])
        = .ok (some n) ∧
      n.attributes = [("name", Json.str "root")] ∧
      JsonNodeBuilder.buildList [Json.obj [("name", Json.str "c")]]
        = .ok (n.children.map some)) := by
  have hb : JsonNodeBuilder.build (.obj [("name", Json.str "root"),
      ("children", Json.arr [Json.obj [("name", Json.str "c")]])])
      = .ok (some (Node.mk [("name", Json.str "root")]
          [Node.mk [("name", Json.str "c")] []])) := rfl
  refine ⟨(json_builder_build_characterization []).1 (Json.num 7)
      (fun fs h => Json.noConfusion h),
    Node.mk [("name", Json.str "root")] [Node.mk [("name", Json.str "c")] []],
    hb, ?_, ?_⟩
  · exact ((json_builder_build_characterization [("name", Json.str "root"),
        ("children", Json.arr [Json.obj [("name", Json.str "c")]])]).2.1 _
        hb).trans rfl
  · exact (json_builder_build_characterization [("name", Json.str "root"),
        ("children", Json.arr [Json.obj [("name", Json.str "c")]])]).2.2.1
        [Json.obj [("name", Json.str "c")]] _ rfl hb

/-! ## The built-in `void` template (`NodeGenerator.__init__`, lines 301-305)
and a Jinja subset sufficient to evaluate it -/

/-- The template string registered under the tag `void` (lines 301-305). -/
def voidTemplate : String :=
  "\x7b%- for child in node.children -%\x7d\n    \x7b\x7b render(child) \x7d\x7d\n\x7b%- endfor %\x7d"

/-- Tokens of the Jinja subset: literal text, an expression tag
`\x7b\x7b ... \x7d\x7d`, a statement tag `\x7b% ... %\x7d`; `lt`/`rt` record
the `-` whitespace-control markers on the tag edges. -/
inductive JTok where
  | text (s : List Char) : JTok
  | expr (lt : Bool) (content : List Char) (rt : Bool) : JTok
  | stmt (lt : Bool) (content : List Char) (rt : Bool) : JTok

/-- Read up to the first `c1` followed by a closing brace, returning the
content before it and the remainder after it. -/
def readUntilClose (c1 : Char) : List Char → Option (List Char × List Char)
  | [] => none
  | c :: rest =>
      if c = c1 then
        match rest with
        | c2 :: rest2 =>
            if c2 = '\x7d' then some ([], rest2)
            else
              match readUntilClose c1 rest with
              | some (con, r) => some (c :: con, r)
              | none => none
        | [] => none
      else
        match readUntilClose c1 rest with
        | some (con, r) => some (c :: con, r)
        | none => none

/-- Strip the `-` whitespace-control markers off a tag's raw content. -/
def stripMarkers (content : List Char) : Bool × List Char × Bool :=
  let p :=
    match content with
    | '-' :: rest => (true, rest)
    | _ => (false, content)
  let rt := p.2.getLast? == some '-'
  (p.1, if rt then p.2.dropLast else p.2, rt)

def isSpaceChar (c : Char) : Bool :=
  c == ' ' || c == '\n' || c == '\t' || c == '\r'

def trimChars (cs : List Char) : List Char :=
  ((cs.dropWhile isSpaceChar).reverse.dropWhile isSpaceChar).reverse

/-- Tokenizer of the Jinja subset (fuel-driven; the fuel is in excess of the
input length at the top level). -/
def tokenize : Nat → List Char → Option (List JTok)
  | 0, _ => none
  | _ + 1, [] => some []
  | fuel + 1, '\x7b' :: '\x7b' :: rest =>
      match readUntilClose '\x7d' rest with
      | none => none
      | some (con, r) =>
          match stripMarkers con with
          | (lt, c, rt) =>
              match tokenize fuel r with
              | none => none
              | some toks => some (.expr lt (trimChars c) rt :: toks)
  | fuel + 1, '\x7b' :: '%' :: rest =>
      match readUntilClose '%' rest with
      | none => none
      | some (con, r) =>
          match stripMarkers con with
          | (lt, c, rt) =>
              match tokenize fuel r with
              | none => none
              | some toks => some (.stmt lt (trimChars c) rt :: toks)
  | fuel + 1, c :: rest =>
      match tokenize fuel rest with
      | none => none
      | some (JTok.text s :: toks) => some (.text (c :: s) :: toks)
      | some toks => some (.text [c] :: toks)

/-- Does the next token carry a left whitespace-control marker? -/
def nextStripsLeft : List JTok → Bool
  | JTok.expr lt _ _ :: _ => lt
  | JTok.stmt lt _ _ :: _ => lt
  | _ => false

/-- Jinja whitespace control: a `-` on the right edge of a tag strips the
whitespace at the start of the following text; a `-` on the left edge strips
the whitespace at the end of the preceding text. Text emptied by stripping is
dropped. -/
def applyTrim : Bool → List JTok → List JTok
  | _, [] => []
  | stripL, JTok.text s :: rest =>
      let s1 := if stripL then s.dropWhile isSpaceChar else s
      let s2 :=
        if nextStripsLeft rest then (s1.reverse.dropWhile isSpaceChar).reverse
        else s1
      if s2.isEmpty then applyTrim false rest
      else JTok.text s2 :: applyTrim false rest
  | _, JTok.expr lt c rt :: rest => JTok.expr lt c rt :: applyTrim rt rest
  | _, JTok.stmt lt c rt :: rest => JTok.stmt lt c rt :: applyTrim rt rest

/-- AST of the Jinja subset exercised by the built-in template. -/
inductive Piece where
  | text (s : String) : Piece
  | renderChild : Piece
  | forChildren (body : List Piece) : Piece

def forHeader : List Char := "for child in node.children".data

def endforHeader : List Char := "endfor".data

def renderChildExpr : List Char := "render(child)".data

/-- Parse a token sequence into pieces; stops (without consuming) at a
closing `endfor` statement. -/
def parseSeq : Nat → List JTok → Option (List Piece × List JTok)
  | 0, _ => none
  | _ + 1, [] => some ([], [])
  | fuel + 1, JTok.text s :: rest =>
      match parseSeq fuel rest with
      | some (ps, r) => some (.text (String.mk s) :: ps, r)
      | none => none
  | fuel + 1, JTok.expr _ c _ :: rest =>
      if c == renderChildExpr then
        match parseSeq fuel rest with
        | some (ps, r) => some (.renderChild :: ps, r)
        | none => none
      else none
  | fuel + 1, JTok.stmt lt c rt :: rest =>
      if c == endforHeader then some ([], JTok.stmt lt c rt :: rest)
      else if c == forHeader then
        match parseSeq fuel rest with
        | some (body, r) =>
            match r with
            | JTok.stmt _ c2 _ :: r2 =>
                if c2 == endforHeader then
                  match parseSeq fuel r2 with
                  | some (ps, r3) => some (.forChildren body :: ps, r3)
                  | none => none
                else none
            | _ => none
        | none => none
      else none

/-- Front end of the Jinja subset: tokenize, apply whitespace control, parse. -/
def parseJinja (cs : List Char) : Option (List Piece) :=
  match tokenize (cs.length + 1) cs with
  | none => none
  | some toks =>
      match parseSeq (toks.length + 1) (applyTrim false toks) with
      | some (ps, []) => some ps
      | _ => none

mutual
/-- Evaluate a sequence of pieces under the node, the recursive render
capability, and the current `for` loop variable `child` (`bound`). -/
def evalPieces (render : Node → String) (node : Node) (bound : Option Node) :
    List Piece → Option String
  | [] => some ""
  | Piece.text s :: ps =>
      match evalPieces render node bound ps with
      | some r => some (s ++ r)
      | none => none
  | Piece.renderChild :: ps =>
      match bound with
      | none => none
      | some c =>
          match evalPieces render node bound ps with
          | some r => some (render c ++ r)
          | none => none
  | Piece.forChildren body :: ps =>
      match evalFor render node body node.children with
      | none => none
      | some inner =>
          match evalPieces render node bound ps with
          | some r => some (inner ++ r)
          | none => none
termination_by ps => (sizeOf ps, 0)

/-- Evaluate a `for child in node.children` body once per child, in order,
concatenating the results with nothing in between. -/
def evalFor (render : Node → String) (node : Node) (body : List Piece) :
    List Node → Option String
  | [] => some ""
  | c :: cs =>
      match evalPieces render node (some c) body with
      | none => none
      | some r =>
          match evalFor render node body cs with
          | none => none
          | some rest => some (r ++ rest)
termination_by cs => (sizeOf body, cs.length + 1)
end

/-- Render a template string of the Jinja subset against the context
`{"node": node, "render": render}`. -/
def renderJinja (render : Node → String) (node : Node) (tpl : String) :
    Option String :=
  match parseJinja tpl.data with
  | none => none
  | some ps => evalPieces render node none ps

theorem string_join_cons (s : String) (l : List String) :
    String.join (s :: l) = s ++ String.join l := by
  rw [String.join_eq, String.join_eq]
  rfl

theorem evalFor_renderChild (render : Node → String) (node : Node)
    (cs : List Node) :
    evalFor render node [Piece.renderChild] cs
      = some (String.join (cs.map render)) := by
  induction cs with
  | nil =>
      simp [evalFor]
      rfl
  | cons c cs ih =>
      have h1 : evalPieces render node (some c) [Piece.renderChild]
          = some (render c ++ "") := by
        simp [evalPieces]
      simp only [evalFor, h1, ih, List.map_cons, string_join_cons,
        String.append_empty]

/-- **C8.** The inline template registered under the tag `void`
(`NodeGenerator.__init__`, lines 301-305) evaluates, under Jinja's
whitespace-control semantics, to exactly the concatenation — in child order,
with no separator or whitespace between or around them — of the recursive
render of each child of the node; for a node with no children it renders the
empty string (`String.join []`). -/
theorem void_template_renders_children_concatenation
    (render : Node → String) (node : Node) :
    renderJinja render node voidTemplate
      = some (String.join (node.children.map render)) := by
  have hp : parseJinja voidTemplate.data
      = some [Piece.forChildren [Piece.renderChild]] := rfl
  unfold renderJinja
  simp only [hp]
  have he : evalPieces render node none [Piece.forChildren [Piece.renderChild]]
      = match evalFor render node [Piece.renderChild] node.children with
        | none => none
        | some inner =>
            match evalPieces render node none ([] : List Piece) with
            | some r => some (inner ++ r)
            | none => none := by
    simp [evalPieces]
  rw [he, evalFor_renderChild]
  simp [evalPieces, String.append_empty]
